import Mathlib

/-!
Shallow embedding of the CSV-ingestion pipeline and query endpoints of the
Statistics Austria trade-index service (`app/ingest.py`, `app/main.py`),
together with proofs settling the specification claims.

Python strings are modelled as `List Char`; Python `None` as `Option`;
code that may raise is modelled with an explicit `PyResult`.
-/

namespace StatAt

/-- Python strings, modelled as lists of characters. -/
abbrev Str := List Char

/-- Outcome of Python code that may raise an exception. -/
inductive PyResult (α : Type) where
  | raises : PyResult α
  | ok : α → PyResult α
deriving DecidableEq

/-- Python `str.strip()`: drop leading and trailing whitespace. -/
def pyStrip (s : Str) : Str :=
  ((s.dropWhile Char.isWhitespace).reverse.dropWhile Char.isWhitespace).reverse

/-- Numeric value of a string of decimal digits (Python `int` on digit strings). -/
def natOfDigits (s : Str) : Nat :=
  s.foldl (fun n c => n * 10 + (c.toNat - 48)) 0

/-- True iff the string is nonempty and all characters are decimal digits
(Python `str.isdigit` restricted to ASCII, which is all the source data uses). -/
def allDigits (s : Str) : Bool :=
  !s.isEmpty && s.all Char.isDigit

/-- A calendar date as stored in the analytics mart. -/
structure Date where
  year : Nat
  month : Nat
  day : Nat
deriving DecidableEq

/-- Numeric encoding of a date; on calendar dates its order is calendar order
(this is the order SQL `ORDER BY period_date` uses). -/
def Date.code (d : Date) : Nat :=
  d.year * 10000 + d.month * 100 + d.day

/-- The five metrics unpivoted into the mart table. -/
inductive Metric where
  | uidxnom | uidxreal | beschidx | uidxnsb | uidxrsb
deriving DecidableEq

/-- The metrics in the iteration order of `METRIC_COLUMNS`. -/
def metricList : List Metric :=
  [.uidxnom, .uidxreal, .beschidx, .uidxnsb, .uidxrsb]

/-- A value of the Python type `decimal.Decimal`: a finite number
`(-1)^sign * coeff * 10^exp`, an infinity, or a (signaling) NaN. -/
inductive PyDec where
  | num (sign : Bool) (coeff : Nat) (exp : Int)
  | infty (sign : Bool)
  | nan (sign : Bool) (signaling : Bool) (payload : Nat)
deriving DecidableEq

/-- The rational value of a finite decimal; `none` for infinities and NaNs. -/
def PyDec.toRat : PyDec → Option Rat
  | .num sign coeff exp =>
      some ((if sign then -1 else 1) * (coeff : Rat) * (10 : Rat) ^ exp)
  | _ => none

/-- Parse the `digits '.' [digits] | ['.'] digits` part of the decimal grammar:
returns coefficient digits-value and the fractional-length exponent shift. -/
def parseDecPart (s : Str) : Option (Nat × Int) :=
  match s.splitOn '.' with
  | [a] => if allDigits a then some (natOfDigits a, 0) else none
  | [a, b] =>
      if a.all Char.isDigit && b.all Char.isDigit && (!a.isEmpty || !b.isEmpty) then
        some (natOfDigits (a ++ b), -(b.length : Int))
      else none
  | _ => none

/-- Parse the exponent field `[sign] digits` of the decimal grammar. -/
def parseExpPart (s : Str) : Option Int :=
  match s with
  | '+' :: rest => if allDigits rest then some (natOfDigits rest : Int) else none
  | '-' :: rest => if allDigits rest then some (-(natOfDigits rest : Int)) else none
  | rest => if allDigits rest then some (natOfDigits rest : Int) else none

/-- Parse a sign-free lowercased decimal numeric token. -/
def parseDecBody (sign : Bool) (body : Str) : Option PyDec :=
  if body = "inf".toList || body = "infinity".toList then some (.infty sign)
  else
    match body with
    | 'n' :: 'a' :: 'n' :: ds =>
        if ds.all Char.isDigit then some (.nan sign false (natOfDigits ds)) else none
    | 's' :: 'n' :: 'a' :: 'n' :: ds =>
        if ds.all Char.isDigit then some (.nan sign true (natOfDigits ds)) else none
    | _ =>
        match body.splitOn 'e' with
        | [m] => (parseDecPart m).map (fun p => .num sign p.1 p.2)
        | [m, ex] =>
            match parseDecPart m, parseExpPart ex with
            | some p, some e => some (.num sign p.1 (p.2 + e))
            | _, _ => none
        | _ => none

/-- The `Decimal(str)` constructor of Python: strips surrounding whitespace and
underscores, then parses the decimal numeric-string grammar case-insensitively;
`none` models `InvalidOperation`. -/
def decOfString (s : Str) : Option PyDec :=
  let t := ((pyStrip s).filter (fun c => c ≠ '_')).map Char.toLower
  match t with
  | '+' :: rest => parseDecBody false rest
  | '-' :: rest => parseDecBody true rest
  | rest => if rest.isEmpty then none else parseDecBody false rest

/-- Model of `ingest._parse_decimal`: strip, treat empty as absent, drop embedded spaces,
turn comma separators into dots, then attempt a `Decimal` parse, mapping
`InvalidOperation` to absent. -/
def parseDecimal (raw : Option Str) : Option PyDec :=
  match raw with
  | none => none
  | some raw =>
      let cleaned := pyStrip raw
      if cleaned.isEmpty then none
      else
        decOfString ((cleaned.filter (fun c => c ≠ ' ')).map
          (fun c => if c = ',' then '.' else c))

/-- Model of `ingest._normalize_header`: strip whitespace, drop leading BOMs, uppercase,
remove spaces, turn underscores into dashes. -/
def normalizeHeader (s : Str) : Str :=
  ((((pyStrip s).dropWhile (fun c => c = '\uFEFF')).map Char.toUpper).filter
    (fun c => c ≠ ' ')).map (fun c => if c = '_' then '-' else c)

/-- The per-header test of `ingest._resolve_column`: after normalization the
header equals the target, or ends with it, or starts with it. -/
def headerMatches (target name : Str) : Bool :=
  let nn := normalizeHeader name
  let tn := normalizeHeader target
  nn = tn || tn.isSuffixOf nn || tn.isPrefixOf nn

/-- Model of `ingest._resolve_column`: scan the header list in order and return the
first header that matches the target under `headerMatches`. -/
def resolveColumn (fieldnames : List Str) (target : Str) : Option Str :=
  match fieldnames with
  | [] => none
  | name :: rest =>
      if headerMatches target name then some name else resolveColumn rest target

/-- Modelled from the words of the spec for comparison (claim C1): resolve by
equality over the whole list first, then by prefix over the whole list, then
by suffix over the whole list. -/
def resolveColumnSpecOrder (fieldnames : List Str) (target : Str) : Option Str :=
  let tn := normalizeHeader target
  match fieldnames.find? (fun n => normalizeHeader n = tn) with
  | some n => some n
  | none =>
      match fieldnames.find? (fun n => tn.isPrefixOf (normalizeHeader n)) with
      | some n => some n
      | none => fieldnames.find? (fun n => tn.isSuffixOf (normalizeHeader n))

/-- The nonempty stripped sample values of column `idx` over the first 200
data rows (the `sample_values` list of `ingest._find_month_index`). -/
def sampleValues (dataRows : List (List Str)) (idx : Nat) : List Str :=
  (dataRows.take 200).filterMap (fun row =>
    match row.get? idx with
    | some v => let s := pyStrip v; if s.isEmpty then none else some s
    | none => none)

/-- The column test of `ingest._find_month_index`: the sample is nonempty and
every sampled value is a digit string whose value lies in `[1, 12]`. -/
def monthColumnTest (dataRows : List (List Str)) (idx : Nat) : Bool :=
  let sv := sampleValues dataRows idx
  !sv.isEmpty && sv.all (fun v => allDigits v && 1 ≤ natOfDigits v && natOfDigits v ≤ 12)

/-- First index in `[start, start + fuel)` satisfying `p` (the scan loop of
`ingest._find_month_index`). -/
def findFrom (p : Nat → Bool) : Nat → Nat → Option Nat
  | _, 0 => none
  | start, fuel + 1 => if p start then some start else findFrom p (start + 1) fuel

/-- Model of `ingest._find_month_index`: the first column index whose sampled values
all look like months. -/
def findMonthIndex (dataRows : List (List Str)) (header : List Str) : Option Nat :=
  findFrom (monthColumnTest dataRows) 0 header.length

/-- Python integer formatting with the 02d format spec: decimal digits of
`n`, zero-padded to width two. -/
def pad2 (n : Nat) : Str :=
  if n < 10 then '0' :: Nat.toDigits 10 n else Nat.toDigits 10 n

/-- The month-heuristic application of `ingest._parse_csv_rows`: when a month
column was found, the period key is a bare 4-digit year, and the month cell is
a nonempty digit string, append the zero-padded month value to the year. -/
def applyMonthHeuristic (monthIdx : Option Nat) (row : List Str) (periodKey : Str) : Str :=
  if allDigits periodKey && periodKey.length = 4 then
    match monthIdx with
    | none => periodKey
    | some mi =>
        let mv := (row.get? mi).getD []
        if !mv.isEmpty && mv.all Char.isDigit then periodKey ++ pad2 (natOfDigits mv)
        else periodKey
  else periodKey

/-- Model of `ingest._period_to_date`: tolerant conversion of period keys to dates.
`strptime` raises when the 6-digit shape has no valid year-month split
(month outside `[1, 12]`) or the year is `0000`; this is modelled by
`PyResult.raises`. -/
def periodToDate (pk : Str) : PyResult (Option Date) :=
  let c0 := pyStrip pk
  let cleaned :=
    if c0.contains '-' then
      let parts := c0.splitOn '-'
      let lastPart := parts.getLastD []
      if lastPart.length = 6 then lastPart
      else if lastPart.length = 2 && (parts.headD []).length = 4 then
        (parts.headD []) ++ (parts.getD 1 [])
      else if lastPart.length = 4 then lastPart
      else c0
    else c0
  if cleaned.length = 6 && cleaned.all Char.isDigit then
    let y := natOfDigits (cleaned.take 4)
    let m := natOfDigits (cleaned.drop 4)
    if 1 ≤ y && 1 ≤ m && m ≤ 12 then .ok (some ⟨y, m, 1⟩) else .raises
  else if cleaned.length = 4 && cleaned.all Char.isDigit then
    let y := natOfDigits cleaned
    if 1 ≤ y then .ok (some ⟨y, 1, 1⟩) else .raises
  else .ok none

/-- A parsed CSV row (`ingest.ParsedRow`): period key, category key, and the
five metric cells after decimal parsing. -/
structure ParsedRow where
  periodKey : Str
  naceKey : Str
  values : Metric → Option PyDec

/-- The `str.replace` call of `ingest.ingest` on the category key: remove
every occurrence of the sentinel `NACEIDX-`, scanning left to right. -/
def stripNace : Str → Str
  | 'N' :: 'A' :: 'C' :: 'E' :: 'I' :: 'D' :: 'X' :: '-' :: rest => stripNace rest
  | c :: rest => c :: stripNace rest
  | [] => []

/-- Modelled from the words of the spec for comparison (claim C7): the category key
with the prefix stripped — remove one leading `NACEIDX-` when present,
leave the key unchanged otherwise. -/
def stripNaceSpecLeading (s : Str) : Str :=
  if "NACEIDX-".toList.isPrefixOf s then s.drop 8 else s

/-- One record of the analytics mart as produced by one unpivot step. -/
structure MartRec where
  pdate : Date
  nace : Str
  metric : Metric
  value : PyDec
deriving DecidableEq

/-- The mart records derived from one parsed row in `ingest.ingest`:
raises when `_period_to_date` raises, emits nothing when the period is
unresolved, and otherwise emits one record per present metric in
`METRIC_COLUMNS` order. -/
def rowMart (row : ParsedRow) : PyResult (List MartRec) :=
  match periodToDate row.periodKey with
  | .raises => .raises
  | .ok none => .ok []
  | .ok (some d) =>
      .ok (metricList.filterMap (fun m =>
        (row.values m).map (fun v => ⟨d, stripNace row.naceKey, m, v⟩)))

/-- The full mart-row derivation loop of `ingest.ingest` over all parsed rows. -/
def deriveMart : List ParsedRow → PyResult (List MartRec)
  | [] => .ok []
  | row :: rest =>
      match rowMart row, deriveMart rest with
      | .ok l, .ok ls => .ok (l ++ ls)
      | _, _ => .raises

/-- A generic SQL `INSERT ... ON CONFLICT (key) DO UPDATE` over a batch:
each batch element overwrites the row at its key with its payload and the
ingestion timestamp of the run. -/
def upsert {κ α β : Type} [DecidableEq κ] (key : β → κ) (pay : β → α) (ts : Nat)
    (batch : List β) (t : κ → Option (α × Nat)) : κ → Option (α × Nat) :=
  batch.foldl (fun acc r => fun k => if k = key r then some (pay r, ts) else acc k) t

/-- The metric payload of a raw staging row (the five decimal columns). -/
def rawPayload (r : ParsedRow) : Metric → Option PyDec := r.values

/-- The raw staging table: `(period_key, nace_key)` to metric payload and
ingestion timestamp. -/
abbrev RawTable := Str × Str → Option ((Metric → Option PyDec) × Nat)

/-- The mart table: `(period_date, nace_code, metric)` to value and
ingestion timestamp. -/
abbrev MartTable := Date × Str × Metric → Option (PyDec × Nat)

/-- Database state touched by ingestion. -/
structure DbState where
  raw : RawTable
  mart : MartTable

/-- The database effect of one `ingest.ingest` run over already-parsed rows:
upsert all raw rows keyed by `(period_key, nace_key)`, then derive and upsert
the mart rows keyed by `(period_date, nace_code, metric)`. A raise during
mart derivation rolls the transaction back. -/
def ingestStep (rows : List ParsedRow) (ts : Nat) (s : DbState) : PyResult DbState :=
  match deriveMart rows with
  | .raises => .raises
  | .ok mrows =>
      .ok { raw := upsert (fun r => (r.periodKey, r.naceKey)) rawPayload ts rows s.raw,
            mart := upsert (fun r : MartRec => (r.pdate, r.nace, r.metric))
              (fun r => r.value) ts mrows s.mart }

/-- Forget the ingestion timestamps of a table, keeping keys and payloads. -/
def dropTs {κ α : Type} (t : κ → Option (α × Nat)) : κ → Option α :=
  fun k => (t k).map Prod.fst

/-- Result of the `/latest` endpoint. -/
structure LatestRes where
  latestDate : Date
  latestValue : Rat
  previousValue : Option Rat
  delta : Option Rat
  deltaPercent : Option Rat
deriving DecidableEq

/-- Model of `main.get_latest` after the SQL query: the input is the matching
`(period_date, value)` rows ordered by date descending and limited to two;
an empty result is a 404 (`PyResult.raises` models `HTTPException`). -/
def getLatest (rows : List (Date × Rat)) : PyResult LatestRes :=
  match rows with
  | [] => .raises
  | latest :: rest =>
      let previous := rest.head?
      let previousValue := previous.map Prod.snd
      let delta := previousValue.map (fun p => latest.2 - p)
      let deltaPercent :=
        match previousValue with
        | some p => if p = 0 then none else some ((latest.2 - p) / p * 100)
        | none => none
      .ok ⟨latest.1, latest.2, previousValue, delta, deltaPercent⟩

/-- Result of the `/insights/nominal-vs-real` endpoint. -/
structure NvrRes where
  periodDate : Date
  uidxnom : Option Rat
  uidxreal : Option Rat
  gap : Option Rat
deriving DecidableEq

/-- Model of `main.nominal_vs_real` after the SQL query: the input is the matching
`(period_date, metric, value)` rows (metrics restricted to `uidxnom` and
`uidxreal` by the query) ordered by date descending; empty input is a 404.
`latest_date` is the date of the first row; the metric map keeps the last
occurrence per metric among the rows at that date. -/
def nominalVsReal (rows : List (Date × Metric × Rat)) : PyResult NvrRes :=
  match rows with
  | [] => .raises
  | r0 :: _ =>
      let latestDate := r0.1
      let latestRows := rows.filter (fun r => r.1 = latestDate)
      let nom := ((latestRows.filter (fun r => r.2.1 = Metric.uidxnom)).getLast?).map
        (fun r => r.2.2)
      let real := ((latestRows.filter (fun r => r.2.1 = Metric.uidxreal)).getLast?).map
        (fun r => r.2.2)
      let gap :=
        match nom, real with
        | some a, some b => some (a - b)
        | _, _ => none
      .ok ⟨latestDate, nom, real, gap⟩

/-- A database state with empty raw and mart tables. -/
def emptyDb : DbState := ⟨fun _ => none, fun _ => none⟩

/-- A parsed row whose period key has an out-of-range month in its trailing
two digits (as produced by concatenating month `13` onto year `2023`). -/
def row202313 : ParsedRow :=
  ⟨"202313".toList, "NACEIDX-B".toList, fun _ => some (.num false 100 0)⟩

/-- A parsed row whose `uidxnom` cell parsed to a NaN decimal. -/
def rowNan : ParsedRow :=
  ⟨"202301".toList, "NACEIDX-B".toList,
    fun m => if m = Metric.uidxnom then some (.nan false false 0) else none⟩

/-- Extract the state of a successful ingestion run (empty on a raise). -/
def okDb : PyResult DbState → DbState
  | .ok s => s
  | .raises => emptyDb

/-- A well-formed parsed row used by concrete witnesses. -/
def rowW : ParsedRow :=
  ⟨"202301".toList, "NACEIDX-B".toList,
    fun m => if m = Metric.uidxnom then some (.num false 1015 (-1)) else none⟩

/-- A parsed row with three of the five metrics present. -/
def row3of5 : ParsedRow :=
  ⟨"202301".toList, "NACEIDX-B".toList,
    fun m => match m with
      | .uidxnom => some (.num false 100 0)
      | .uidxreal => some (.num false 90 0)
      | .beschidx => none
      | .uidxnsb => some (.num false 5 0)
      | .uidxrsb => none⟩

/-- A parsed row whose category key contains `NACEIDX-` away from the front. -/
def rowNaceMid : ParsedRow :=
  ⟨"202301".toList, "XNACEIDX-Y".toList,
    fun m => if m = Metric.uidxnom then some (.num false 100 0) else none⟩

/-- A two-row query result with both metrics at one date. -/
def nvrRowsW : List (Date × Metric × Rat) :=
  [(⟨2023, 1, 1⟩, .uidxnom, 100), (⟨2023, 1, 1⟩, .uidxreal, 90)]

/-- The query result used to refute the shared-date phrasing of C3: `uidxnom` has a
strictly later date than `uidxreal`. -/
def nvrRows : List (Date × Metric × Rat) :=
  [(⟨2023, 2, 1⟩, .uidxnom, 110), (⟨2023, 1, 1⟩, .uidxnom, 100),
   (⟨2023, 1, 1⟩, .uidxreal, 90)]

/-- The scan of `_resolve_column` is a first-match search over the header list. -/
theorem resolveColumn_eq_find (fn : List Str) (t : Str) :
    resolveColumn fn t = fn.find? (headerMatches t) := by
  induction fn with
  | nil => rfl
  | cons n rest ih =>
      cases h : headerMatches t n <;> simp [resolveColumn, List.find?_cons, h, ih]

/-- C1 (amended): the column resolver returns the first header in list order
whose normalization equals, ends with, or starts with the normalized target —
the three relations share one pass, so positional order wins, not the
equality > prefix > suffix relation order; it returns unresolved exactly when
no header matches under any of the three relations. -/
theorem resolveColumn_first_match_wins :
    (∀ fn t h, resolveColumn fn t = some h ↔
      headerMatches t h = true ∧
        ∃ pre post, fn = pre ++ h :: post ∧ ∀ x ∈ pre, headerMatches t x = false) ∧
    (∀ fn t, resolveColumn fn t = none ↔ ∀ x ∈ fn, headerMatches t x = false) ∧
    (∀ t n, headerMatches t n = true ↔
      (normalizeHeader n = normalizeHeader t ∨
        (normalizeHeader t).isSuffixOf (normalizeHeader n) = true ∨
        (normalizeHeader t).isPrefixOf (normalizeHeader n) = true)) := by
  refine ⟨?_, ?_, ?_⟩
  · intro fn t h
    rw [resolveColumn_eq_find, List.find?_eq_some]
    constructor
    · rintro ⟨hp, pre, post, rfl, hall⟩
      exact ⟨hp, pre, post, rfl, fun x hx => by simpa using hall x hx⟩
    · rintro ⟨hp, pre, post, rfl, hall⟩
      exact ⟨hp, pre, post, rfl, fun x hx => by simpa using hall x hx⟩
  · intro fn t
    rw [resolveColumn_eq_find, List.find?_eq_none]
    simp
  · intro t n
    simp [headerMatches, or_assoc]

/-- Witness for the amended theorem of C1 at a concrete header list. -/
theorem resolveColumn_first_match_wins_witness :
    resolveColumn ["A_B".toList, "F-UIDXNOM".toList] "F-UIDXNOM".toList
      = some "F-UIDXNOM".toList :=
  (resolveColumn_first_match_wins.1 _ _ _).mpr
    ⟨by decide, ["A_B".toList], [], by decide, by decide⟩

/-- C1 (counterexample): with headers `[XF-UIDXNOM, F-UIDXNOM]` and target
`F-UIDXNOM`, the resolver returns the earlier suffix-only match even though a
later header matches by exact equality, refuting equality-first priority
across the header list. -/
theorem resolveColumn_suffix_beats_equality :
    resolveColumn ["XF-UIDXNOM".toList, "F-UIDXNOM".toList] "F-UIDXNOM".toList
        = some "XF-UIDXNOM".toList ∧
    normalizeHeader "F-UIDXNOM".toList = normalizeHeader "F-UIDXNOM".toList ∧
    normalizeHeader "XF-UIDXNOM".toList ≠ normalizeHeader "F-UIDXNOM".toList ∧
    "XF-UIDXNOM".toList ≠ "F-UIDXNOM".toList := by decide

/-- C2: the period normalizer is not total — on the 6-digit key `202313`,
whose trailing two digits are not a valid month, `strptime` raises
`ValueError`, and the raise propagates out of `ingest`, aborting the run
instead of merely excluding the row from the mart. -/
theorem periodToDate_raises_on_bad_month :
    periodToDate "202313".toList = .raises ∧
    ingestStep [row202313] 0 emptyDb = .raises := by
  exact ⟨by decide, rfl⟩

/-- C10: the decimal parser passes the special values of `Decimal` through — `nan`,
`NaN`, `inf` and `Infinity` parse to non-absent NaN/Infinity decimals (only
`InvalidOperation` is treated as absent), and such a value is unpivoted into
the mart like any present metric. -/
theorem parseDecimal_special_values :
    parseDecimal (some "nan".toList) = some (.nan false false 0) ∧
    parseDecimal (some "NaN".toList) = some (.nan false false 0) ∧
    parseDecimal (some "inf".toList) = some (.infty false) ∧
    parseDecimal (some "Infinity".toList) = some (.infty false) ∧
    rowMart rowNan
      = .ok [⟨⟨2023, 1, 1⟩, "B".toList, Metric.uidxnom, .nan false false 0⟩] := by
  decide

/-- The value of an upsert at a key: the payload of the last batch element
carrying that key (stamped with the timestamp of this run), or the prior
entry. -/
theorem upsert_apply {κ α β : Type} [DecidableEq κ] (key : β → κ) (pay : β → α)
    (ts : Nat) (batch : List β) (t : κ → Option (α × Nat)) (k : κ) :
    upsert key pay ts batch t k =
      match batch.reverse.find? (fun r => decide (k = key r)) with
      | some r => some (pay r, ts)
      | none => t k := by
  induction batch generalizing t with
  | nil => rfl
  | cons r l ih =>
      have h0 : upsert key pay ts (r :: l) t
          = upsert key pay ts l (fun k' => if k' = key r then some (pay r, ts) else t k') :=
        rfl
      rw [h0, ih, List.reverse_cons, List.find?_append]
      cases hf : l.reverse.find? (fun r => decide (k = key r)) with
      | some r' => rfl
      | none =>
          simp only [Option.none_or, List.find?_singleton]
          by_cases hk : k = key r
          · simp [hk]
          · simp [hk]

/-- Re-upserting an identical batch rewrites each of its keys with the same
payload: only timestamps change. -/
theorem upsert_idem {κ α β : Type} [DecidableEq κ] (key : β → κ) (pay : β → α)
    (ts1 ts2 : Nat) (batch : List β) (t : κ → Option (α × Nat)) :
    dropTs (upsert key pay ts2 batch (upsert key pay ts1 batch t))
      = dropTs (upsert key pay ts1 batch t) := by
  funext k
  simp only [dropTs, upsert_apply]
  cases hf : batch.reverse.find? (fun r => decide (k = key r)) <;> simp [hf]

/-- C4: ingestion is idempotent — running the database effect of `ingest`
twice over the same parsed rows (the parse is a pure function of the source
text) leaves both the raw staging table and the mart table with the same keys
and payloads as one run; only the ingestion timestamps differ. -/
theorem ingest_idempotent (rows : List ParsedRow) (ts1 ts2 : Nat)
    (s s1 s2 : DbState)
    (h1 : ingestStep rows ts1 s = .ok s1) (h2 : ingestStep rows ts2 s1 = .ok s2) :
    dropTs s2.raw = dropTs s1.raw ∧ dropTs s2.mart = dropTs s1.mart := by
  cases hm : deriveMart rows with
  | raises =>
      unfold ingestStep at h1
      rw [hm] at h1
      cases h1
  | ok mrows =>
      unfold ingestStep at h1 h2
      rw [hm] at h1 h2
      injection h1 with h1
      injection h2 with h2
      subst h1
      subst h2
      exact ⟨upsert_idem _ _ _ _ _ _, upsert_idem _ _ _ _ _ _⟩

/-- Witness for C4 at a concrete one-row ingestion run. -/
theorem ingest_idempotent_witness :
    dropTs (okDb (ingestStep [rowW] 2 (okDb (ingestStep [rowW] 1 emptyDb)))).raw
        = dropTs (okDb (ingestStep [rowW] 1 emptyDb)).raw ∧
      dropTs (okDb (ingestStep [rowW] 2 (okDb (ingestStep [rowW] 1 emptyDb)))).mart
        = dropTs (okDb (ingestStep [rowW] 1 emptyDb)).mart :=
  ingest_idempotent [rowW] 1 2 emptyDb _ _ rfl rfl

/-- C5: the decimal parser is total (the only exception type `Decimal` can
raise on a cleaned string, `InvalidOperation`, is caught): absent input,
empty input, whitespace-only input, and input that still fails the decimal
grammar after cleaning all map to absent, while comma decimals are rescued —
`1234,56` parses to `1234.56` and `1,234` to `1.234`, not to absent. -/
theorem parseDecimal_total_spec :
    parseDecimal none = none ∧
    parseDecimal (some []) = none ∧
    (∀ s : Str, (∀ c ∈ s, c.isWhitespace) → parseDecimal (some s) = none) ∧
    parseDecimal (some "abc".toList) = none ∧
    parseDecimal (some "1234,56".toList) = some (.num false 123456 (-2)) ∧
    (PyDec.num false 123456 (-2)).toRat = some ((123456 : Rat) / 100) ∧
    parseDecimal (some "1,234".toList) = some (.num false 1234 (-3)) ∧
    (PyDec.num false 1234 (-3)).toRat = some ((1234 : Rat) / 1000) := by
  refine ⟨rfl, rfl, ?_, by decide, by decide, ?_, by decide, ?_⟩
  · intro s hs
    have h1 : s.dropWhile Char.isWhitespace = [] :=
      List.dropWhile_eq_nil_iff.mpr hs
    simp [parseDecimal, pyStrip, h1]
  · simp only [PyDec.toRat, if_neg Bool.false_ne_true, Option.some.injEq]
    norm_num [zpow_neg]
  · simp only [PyDec.toRat, if_neg Bool.false_ne_true, Option.some.injEq]
    norm_num [zpow_neg]

/-- Witness for the whitespace-only clause of C5 at a one-space input. -/
theorem parseDecimal_total_spec_witness :
    parseDecimal (some " ".toList) = none :=
  parseDecimal_total_spec.2.2.1 " ".toList (by decide)

/-- A whitespace character is not a digit. -/
theorem ws_not_digit {c : Char} (h : c.isWhitespace = true) : c.isDigit = false := by
  simp only [Char.isWhitespace, Bool.or_eq_true, decide_eq_true_eq] at h
  rcases h with ((h | h) | h) | h <;> subst h <;> decide

/-- A digit character is not whitespace. -/
theorem digit_not_ws {c : Char} (h : c.isDigit = true) : c.isWhitespace = false := by
  cases hw : c.isWhitespace with
  | false => rfl
  | true => rw [ws_not_digit hw] at h; cases h

/-- Identity of `dropWhile` on lists none of whose elements satisfy `p`. -/
theorem dropWhile_eq_self_of {p : Char → Bool} {s : Str}
    (h : ∀ c ∈ s, p c = false) : s.dropWhile p = s := by
  cases s with
  | nil => rfl
  | cons c t => simp [List.dropWhile_cons, h c (by simp)]

/-- Stripping is the identity on whitespace-free strings. -/
theorem pyStrip_eq_self {s : Str} (h : ∀ c ∈ s, c.isWhitespace = false) :
    pyStrip s = s := by
  unfold pyStrip
  rw [dropWhile_eq_self_of h, dropWhile_eq_self_of (fun c hc => h c (by simpa using hc)),
    List.reverse_reverse]

/-- An all-digits string is whitespace-free. -/
theorem no_ws_of_all_digits {s : Str} (h : s.all Char.isDigit = true) :
    ∀ c ∈ s, c.isWhitespace = false := by
  intro c hc
  exact digit_not_ws (by exact List.all_eq_true.mp h c hc)

/-- An all-digits string contains no dash. -/
theorem no_dash_of_all_digits {s : Str} (h : s.all Char.isDigit = true) :
    '-' ∉ s := by
  intro hm
  have hd := List.all_eq_true.mp h _ hm
  cases hd

/-- Splitting distributes over an append at a separator occurrence. -/
theorem splitOnP_append_sep {α : Type} (P : α → Bool) (sep : α) (hsep : P sep = true)
    (p s : List α) :
    (p ++ sep :: s).splitOnP P = p.splitOnP P ++ s.splitOnP P := by
  induction p with
  | nil => simp [List.splitOnP_cons, hsep]
  | cons c t ih =>
      rw [List.cons_append, List.splitOnP_cons, List.splitOnP_cons]
      by_cases hc : P c = true
      · rw [if_pos hc, if_pos hc, ih, List.cons_append]
      · rw [if_neg hc, if_neg hc, ih]
        cases h : t.splitOnP P with
        | nil => exact absurd h (List.splitOnP_ne_nil _ _)
        | cons x xs => rfl

/-- Splitting on the dash when the part after the last dash is dash-free:
the suffix becomes the last part. -/
theorem splitOn_dash_append (p s : Str) (hs : '-' ∉ s) :
    (p ++ '-' :: s).splitOn '-' = p.splitOn '-' ++ [s] := by
  show (p ++ '-' :: s).splitOnP (fun x => x == '-')
    = p.splitOnP (fun x => x == '-') ++ [s]
  have h2 : s.splitOnP (fun x => x == '-') = [s] := by
    apply List.splitOnP_eq_single
    intro x hx hbeq
    exact hs (beq_iff_eq.mp hbeq ▸ hx)
  rw [splitOnP_append_sep (fun x => x == '-') '-' (by decide) p s, h2]

/-- An all-digits string splits on the dash into itself alone. -/
theorem splitOn_dash_of_digits (s : Str) (hdig : s.all Char.isDigit = true) :
    s.splitOn '-' = [s] := by
  show s.splitOnP (fun x => x == '-') = [s]
  apply List.splitOnP_eq_single
  intro x hx hbeq
  exact no_dash_of_all_digits hdig (beq_iff_eq.mp hbeq ▸ hx)

/-- C6: the period normalizer maps `202301`, `2023`, `TIIDX-202312` and
`2023-01` to the documented dates, and each of the five tolerated shapes is
covered universally: every valid plain 6-digit year-month key maps to the
first day of that month; every bare 4-digit year key (year ≥ 1) maps to
January 1; every prefixed-and-dashed key whose part after the last dash is a
valid 6-digit year-month maps to the first day of that month; every
`YYYY-MM` key with a valid month maps to the first day of that month; every
dashed key whose part after the last dash is a bare 4-digit year (year ≥ 1,
and not of the other dashed shapes, which are tested first) maps to
January 1 of that year; and a dash-free string matching neither plain shape
maps to unresolved. -/
theorem periodToDate_shapes :
    periodToDate "202301".toList = .ok (some ⟨2023, 1, 1⟩) ∧
    periodToDate "2023".toList = .ok (some ⟨2023, 1, 1⟩) ∧
    periodToDate "TIIDX-202312".toList = .ok (some ⟨2023, 12, 1⟩) ∧
    periodToDate "2023-01".toList = .ok (some ⟨2023, 1, 1⟩) ∧
    periodToDate "garbage!".toList = .ok none ∧
    (∀ s : Str, s.length = 6 → s.all Char.isDigit →
      1 ≤ natOfDigits (s.take 4) → 1 ≤ natOfDigits (s.drop 4) →
      natOfDigits (s.drop 4) ≤ 12 →
      periodToDate s = .ok (some ⟨natOfDigits (s.take 4), natOfDigits (s.drop 4), 1⟩)) ∧
    (∀ s : Str, s.length = 4 → s.all Char.isDigit → 1 ≤ natOfDigits s →
      periodToDate s = .ok (some ⟨natOfDigits s, 1, 1⟩)) ∧
    (∀ pre s : Str, pyStrip (pre ++ '-' :: s) = pre ++ '-' :: s →
      s.length = 6 → s.all Char.isDigit →
      1 ≤ natOfDigits (s.take 4) → 1 ≤ natOfDigits (s.drop 4) →
      natOfDigits (s.drop 4) ≤ 12 →
      periodToDate (pre ++ '-' :: s)
        = .ok (some ⟨natOfDigits (s.take 4), natOfDigits (s.drop 4), 1⟩)) ∧
    (∀ a b : Str, a.length = 4 → a.all Char.isDigit →
      b.length = 2 → b.all Char.isDigit →
      1 ≤ natOfDigits a → 1 ≤ natOfDigits b → natOfDigits b ≤ 12 →
      periodToDate (a ++ '-' :: b)
        = .ok (some ⟨natOfDigits a, natOfDigits b, 1⟩)) ∧
    (∀ pre s : Str, pyStrip (pre ++ '-' :: s) = pre ++ '-' :: s →
      s.length = 4 → s.all Char.isDigit → 1 ≤ natOfDigits s →
      periodToDate (pre ++ '-' :: s) = .ok (some ⟨natOfDigits s, 1, 1⟩)) ∧
    (∀ s : Str, pyStrip s = s → '-' ∉ s →
      ¬(s.length = 6 ∧ s.all Char.isDigit = true) →
      ¬(s.length = 4 ∧ s.all Char.isDigit = true) →
      periodToDate s = .ok none) := by
  refine ⟨by decide, by decide, by decide, by decide, by decide, ?_, ?_, ?_, ?_, ?_, ?_⟩
  · intro s h6 hdig hy hm1 hm2
    have hstrip : pyStrip s = s := pyStrip_eq_self (no_ws_of_all_digits hdig)
    have hmem : '-' ∉ s := no_dash_of_all_digits hdig
    have hall := List.all_eq_true.mp hdig
    simp [periodToDate, hstrip, hmem, h6, hall, hy, hm1, hm2]
    exact hall
  · intro s h4 hdig hy
    have hstrip : pyStrip s = s := pyStrip_eq_self (no_ws_of_all_digits hdig)
    have hmem : '-' ∉ s := no_dash_of_all_digits hdig
    have hall := List.all_eq_true.mp hdig
    simp [periodToDate, hstrip, hmem, h4, hall, hy]
    exact hall
  · intro pre s hstrip h6 hdig hy hm1 hm2
    have hsplit : (pre ++ '-' :: s).splitOn '-' = pre.splitOn '-' ++ [s] :=
      splitOn_dash_append pre s (no_dash_of_all_digits hdig)
    have hmem : '-' ∈ pre ++ '-' :: s :=
      List.mem_append_right _ (List.mem_cons_self _ _)
    have hall := List.all_eq_true.mp hdig
    simp [periodToDate, hstrip, hmem, hsplit, List.getLastD_concat, h6, hall,
      hy, hm1, hm2]
    exact hall
  · intro a b h4 hdiga h2 hdigb hy hm1 hm2
    have hsplit : (a ++ '-' :: b).splitOn '-' = [a, b] := by
      rw [splitOn_dash_append a b (no_dash_of_all_digits hdigb),
        splitOn_dash_of_digits a hdiga]
      rfl
    have hstrip : pyStrip (a ++ '-' :: b) = a ++ '-' :: b := by
      apply pyStrip_eq_self
      intro c hc
      rcases List.mem_append.mp hc with hc | hc
      · exact no_ws_of_all_digits hdiga c hc
      · rcases List.mem_cons.mp hc with rfl | hc
        · rfl
        · exact no_ws_of_all_digits hdigb c hc
    have hmem : '-' ∈ a ++ '-' :: b :=
      List.mem_append_right _ (List.mem_cons_self _ _)
    have hlen : (a ++ b).length = 6 := by rw [List.length_append, h4, h2]
    have htake : (a ++ b).take 4 = a := List.take_left' h4
    have hdrop : (a ++ b).drop 4 = b := List.drop_left' h4
    have halla := List.all_eq_true.mp hdiga
    have hallb := List.all_eq_true.mp hdigb
    have hallab : ∀ c ∈ a ++ b, c.isDigit = true := by
      intro c hc
      rcases List.mem_append.mp hc with hc | hc
      · exact halla c hc
      · exact hallb c hc
    simp [periodToDate, hstrip, hmem, hsplit, h4, h2, hlen, htake, hdrop,
      hallab, hy, hm1, hm2]
    exact ⟨halla, hallb⟩
  · intro pre s hstrip h4 hdig hy
    have hsplit : (pre ++ '-' :: s).splitOn '-' = pre.splitOn '-' ++ [s] :=
      splitOn_dash_append pre s (no_dash_of_all_digits hdig)
    have hmem : '-' ∈ pre ++ '-' :: s :=
      List.mem_append_right _ (List.mem_cons_self _ _)
    have hall := List.all_eq_true.mp hdig
    simp [periodToDate, hstrip, hmem, hsplit, List.getLastD_concat, h4, hall, hy]
    exact hall
  · intro s hstrip hmem hn6 hn4
    have hn6' : ¬(s.length = 6 ∧ ∀ c ∈ s, c.isDigit = true) := fun h =>
      hn6 ⟨h.1, List.all_eq_true.mpr h.2⟩
    have hn4' : ¬(s.length = 4 ∧ ∀ c ∈ s, c.isDigit = true) := fun h =>
      hn4 ⟨h.1, List.all_eq_true.mpr h.2⟩
    simp [periodToDate, hstrip, hmem, hn6', hn4']

/-- Witness for the universal clauses of C6 at concrete keys of each shape. -/
theorem periodToDate_shapes_witness :
    periodToDate "202406".toList = .ok (some ⟨2024, 6, 1⟩) ∧
    periodToDate "1999".toList = .ok (some ⟨1999, 1, 1⟩) ∧
    periodToDate ("AB".toList ++ '-' :: "202406".toList) = .ok (some ⟨2024, 6, 1⟩) ∧
    periodToDate ("2024".toList ++ '-' :: "03".toList) = .ok (some ⟨2024, 3, 1⟩) ∧
    periodToDate ("XX".toList ++ '-' :: "2023".toList) = .ok (some ⟨2023, 1, 1⟩) ∧
    periodToDate "20AB".toList = .ok none :=
  ⟨by
    have h := periodToDate_shapes.2.2.2.2.2.1 "202406".toList (by decide) (by decide)
      (by decide) (by decide) (by decide)
    simpa using h,
   by
    have h := periodToDate_shapes.2.2.2.2.2.2.1 "1999".toList (by decide) (by decide)
      (by decide)
    simpa using h,
   by
    have h := periodToDate_shapes.2.2.2.2.2.2.2.1 "AB".toList "202406".toList
      (by decide) (by decide) (by decide) (by decide) (by decide) (by decide)
    simpa using h,
   by
    have h := periodToDate_shapes.2.2.2.2.2.2.2.2.1 "2024".toList "03".toList
      (by decide) (by decide) (by decide) (by decide) (by decide) (by decide)
      (by decide)
    simpa using h,
   by
    have h := periodToDate_shapes.2.2.2.2.2.2.2.2.2.1 "XX".toList "2023".toList
      (by decide) (by decide) (by decide) (by decide)
    simpa using h,
   periodToDate_shapes.2.2.2.2.2.2.2.2.2.2 "20AB".toList (by decide) (by decide)
     (by decide) (by decide)⟩

/-- C7 (amended): for a parsed row whose period key resolves to a date, the
unpivot emits exactly one mart record per present metric, in `METRIC_COLUMNS`
order; each record carries the resolved date, the category key with every
occurrence of `NACEIDX-` removed (Python `str.replace`, not a prefix strip),
the metric name, and the value of that metric — so each mart value traces to
exactly one metric of the row. -/
theorem rowMart_unpivot (row : ParsedRow) (d : Date)
    (hd : periodToDate row.periodKey = .ok (some d)) :
    ∃ l, rowMart row = .ok l ∧
      l.map (fun rec => rec.metric) = metricList.filter (fun m => (row.values m).isSome) ∧
      l.length = (metricList.filter (fun m => (row.values m).isSome)).length ∧
      (∀ rec ∈ l, rec.pdate = d ∧ rec.nace = stripNace row.naceKey ∧
        row.values rec.metric = some rec.value) := by
  have hr : rowMart row = .ok (metricList.filterMap (fun m =>
      (row.values m).map (fun v => ⟨d, stripNace row.naceKey, m, v⟩))) := by
    unfold rowMart
    rw [hd]
  have key : ∀ ml : List Metric,
      ((ml.filterMap (fun m => (row.values m).map
          (fun v => (⟨d, stripNace row.naceKey, m, v⟩ : MartRec)))).map
        (fun rec => rec.metric)) = ml.filter (fun m => (row.values m).isSome) := by
    intro ml
    induction ml with
    | nil => rfl
    | cons m rest ih =>
        cases hv : row.values m with
        | none => simp [List.filterMap_cons, List.filter_cons, hv, ih]
        | some v => simp [List.filterMap_cons, List.filter_cons, hv, ih]
  refine ⟨_, hr, key metricList, ?_, ?_⟩
  · rw [← key metricList, List.length_map]
  · intro rec hrec
    rw [List.mem_filterMap] at hrec
    obtain ⟨m, _, hm⟩ := hrec
    rw [Option.map_eq_some'] at hm
    obtain ⟨v, hv, rfl⟩ := hm
    exact ⟨rfl, rfl, hv⟩

/-- Witness for the amended theorem of C7: three present metrics yield three
rows. -/
theorem rowMart_unpivot_witness :
    (periodToDate row3of5.periodKey = .ok (some ⟨2023, 1, 1⟩)) ∧
    (metricList.filter (fun m => (row3of5.values m).isSome)).length = 3 ∧
    (∃ l, rowMart row3of5 = .ok l ∧
      l.map (fun rec => rec.metric)
        = metricList.filter (fun m => (row3of5.values m).isSome) ∧
      l.length = (metricList.filter (fun m => (row3of5.values m).isSome)).length ∧
      (∀ rec ∈ l, rec.pdate = ⟨2023, 1, 1⟩ ∧ rec.nace = stripNace row3of5.naceKey ∧
        row3of5.values rec.metric = some rec.value)) :=
  ⟨by decide, by decide, rowMart_unpivot row3of5 ⟨2023, 1, 1⟩ (by decide)⟩

/-- C7 (counterexample): on the category key `XNACEIDX-Y` the emitted mart
record carries `XY` — `str.replace` removes the non-leading occurrence —
while stripping a prefix would leave `XNACEIDX-Y` unchanged, so the record
does not carry the category key with only a leading prefix removed. -/
theorem rowMart_nace_not_prefix_strip :
    rowMart rowNaceMid
        = .ok [⟨⟨2023, 1, 1⟩, "XY".toList, Metric.uidxnom, .num false 100 0⟩] ∧
    stripNaceSpecLeading "XNACEIDX-Y".toList = "XNACEIDX-Y".toList ∧
    "XY".toList ≠ "XNACEIDX-Y".toList := by decide

/-- The index scan returns the least satisfying index in its window. -/
theorem findFrom_eq_some (p : Nat → Bool) (fuel : Nat) : ∀ (start i : Nat),
    findFrom p start fuel = some i ↔
      (start ≤ i ∧ i < start + fuel ∧ p i = true ∧
        ∀ j, start ≤ j → j < i → p j = false) := by
  induction fuel with
  | zero =>
      intro start i
      simp only [findFrom]
      constructor
      · intro h; cases h
      · rintro ⟨h1, h2, -⟩; omega
  | succ n ih =>
      intro start i
      rw [findFrom]
      by_cases hp : p start = true
      · rw [if_pos hp]
        constructor
        · intro h
          injection h with h
          subst h
          exact ⟨Nat.le_refl _, by omega, hp, fun j hj1 hj2 => by omega⟩
        · rintro ⟨h1, h2, h3, h4⟩
          have hi : i = start := by
            by_contra hne
            have hlt : start < i := by omega
            have := h4 start (Nat.le_refl _) hlt
            rw [hp] at this
            cases this
          rw [hi]
      · rw [if_neg hp]
        rw [ih (start + 1) i]
        have hps : p start = false := by
          cases h : p start with
          | false => rfl
          | true => exact absurd h hp
        constructor
        · rintro ⟨h1, h2, h3, h4⟩
          refine ⟨by omega, by omega, h3, fun j hj1 hj2 => ?_⟩
          by_cases hj : j = start
          · rw [hj]; exact hps
          · exact h4 j (by omega) hj2
        · rintro ⟨h1, h2, h3, h4⟩
          have h1' : start + 1 ≤ i := by
            by_contra hne
            have : i = start := by omega
            rw [this, hps] at h3
            cases h3
          exact ⟨h1', by omega, h3, fun j hj1 hj2 => h4 j (by omega) hj2⟩

/-- The index scan returns none exactly when no index in its window works. -/
theorem findFrom_eq_none (p : Nat → Bool) (fuel : Nat) : ∀ (start : Nat),
    findFrom p start fuel = none ↔
      ∀ j, start ≤ j → j < start + fuel → p j = false := by
  induction fuel with
  | zero =>
      intro start
      simp only [findFrom]
      constructor
      · intro _ j h1 h2
        exact absurd h2 (by omega)
      · intro _
        trivial
  | succ n ih =>
      intro start
      rw [findFrom]
      by_cases hp : p start = true
      · rw [if_pos hp]
        constructor
        · intro h; cases h
        · intro h
          have := h start (Nat.le_refl _) (by omega)
          rw [hp] at this
          cases this
      · rw [if_neg hp]
        rw [ih (start + 1)]
        have hps : p start = false := by
          cases h : p start with
          | false => rfl
          | true => exact absurd h hp
        constructor
        · intro h j hj1 hj2
          by_cases hj : j = start
          · rw [hj]; exact hps
          · exact h j (by omega) (by omega)
        · intro h j hj1 hj2
          exact h j (by omega) (by omega)

/-- C9: month-index inference scans columns in header order and picks the
first (least) index whose nonempty sample over the first 200 data rows is
entirely digit strings with values in `[1, 12]` — first-found-wins, with no
scoring — and returns none when no column qualifies; the heuristic is applied
only to rows whose period key is a bare 4-digit year, in which case the month
cell value is zero-padded to two digits and appended to the year, yielding
a 6-digit all-digit year-month key that ends in that month value. -/
theorem findMonthIndex_spec :
    (∀ dataRows header i, findMonthIndex dataRows header = some i ↔
      (i < header.length ∧ monthColumnTest dataRows i = true ∧
        ∀ j < i, monthColumnTest dataRows j = false)) ∧
    (∀ dataRows header, findMonthIndex dataRows header = none ↔
      ∀ i < header.length, monthColumnTest dataRows i = false) ∧
    (∀ mi row pk, ¬(pk.length = 4 ∧ pk.all Char.isDigit = true) →
      applyMonthHeuristic mi row pk = pk) ∧
    (∀ mi row pk mv, pk.length = 4 → pk.all Char.isDigit = true →
      row.get? mi = some mv → mv ≠ [] → mv.all Char.isDigit = true →
      1 ≤ natOfDigits mv → natOfDigits mv ≤ 12 →
      applyMonthHeuristic (some mi) row pk = pk ++ pad2 (natOfDigits mv) ∧
        (pk ++ pad2 (natOfDigits mv)).length = 6 ∧
        (pk ++ pad2 (natOfDigits mv)).all Char.isDigit = true ∧
        natOfDigits (pad2 (natOfDigits mv)) = natOfDigits mv) := by
  have hpad : ∀ v : Nat, v < 13 →
      ((pad2 v).length = 2 ∧ (pad2 v).all Char.isDigit = true ∧
        natOfDigits (pad2 v) = v) := by decide
  refine ⟨?_, ?_, ?_, ?_⟩
  · intro dataRows header i
    rw [findMonthIndex, findFrom_eq_some]
    constructor
    · rintro ⟨-, h2, h3, h4⟩
      exact ⟨by omega, h3, fun j hj => h4 j (by omega) hj⟩
    · rintro ⟨h2, h3, h4⟩
      exact ⟨by omega, by omega, h3, fun j _ hj => h4 j hj⟩
  · intro dataRows header
    rw [findMonthIndex, findFrom_eq_none]
    constructor
    · intro h i hi
      exact h i (by omega) (by omega)
    · intro h j _ hj
      exact h j (by omega)
  · intro mi row pk hn
    rw [applyMonthHeuristic.eq_def, if_neg]
    intro hc
    rw [Bool.and_eq_true, allDigits, Bool.and_eq_true] at hc
    obtain ⟨⟨-, hdig⟩, hlen⟩ := hc
    exact hn ⟨by simpa using hlen, hdig⟩
  · intro mi row pk mv hlen hdig hget hne hmdig hm1 hm2
    have hcond : (allDigits pk && decide (pk.length = 4)) = true := by
      rw [allDigits]
      simp [hlen, hdig, List.isEmpty_iff]
      intro h
      rw [h] at hlen
      cases hlen
    have happ : applyMonthHeuristic (some mi) row pk = pk ++ pad2 (natOfDigits mv) := by
      rw [applyMonthHeuristic.eq_def, if_pos hcond]
      simp only [hget, Option.getD_some]
      rw [if_pos]
      simp [hmdig, List.isEmpty_iff, hne]
    obtain ⟨hp1, hp2, hp3⟩ := hpad (natOfDigits mv) (by omega)
    refine ⟨happ, ?_, ?_, hp3⟩
    · rw [List.length_append, hlen, hp1]
    · rw [List.all_append, hdig, hp2]
      rfl

/-- Witness for C9 at a concrete two-column table: the month column is found
first-match, a bare-year row gets the padded month appended, and a
non-bare-year row is left unchanged. -/
theorem findMonthIndex_spec_witness :
    findMonthIndex [["B".toList, "7".toList]] ["h1".toList, "h2".toList] = some 1 ∧
    applyMonthHeuristic (some 1) ["B".toList, "7".toList] "2023".toList
      = "2023".toList ++ pad2 7 ∧
    applyMonthHeuristic (some 1) ["B".toList, "7".toList] "TIIDX-2023".toList
      = "TIIDX-2023".toList :=
  ⟨(findMonthIndex_spec.1 [["B".toList, "7".toList]] ["h1".toList, "h2".toList] 1).mpr
      ⟨by decide, by decide, by decide⟩,
   (findMonthIndex_spec.2.2.2 1 ["B".toList, "7".toList] "2023".toList "7".toList
      (by decide) (by decide) (by decide) (by decide) (by decide) (by decide)
      (by decide)).1,
   findMonthIndex_spec.2.2.1 (some 1) ["B".toList, "7".toList] "TIIDX-2023".toList
     (by decide)⟩

/-- C8: the `/latest` endpoint 404s when the query matches no mart row; with
exactly one matching row it reports no previous value and no deltas; with two
or more, the delta is latest minus previous and the percentage delta is
`delta / previous * 100`, reported as absent when the previous value is zero
(values modelled as exact rationals in place of Python floats). -/
theorem getLatest_spec (rows : List (Date × Rat))
    (hs : List.Pairwise (fun a b : Date × Rat => b.1.code < a.1.code) rows) :
    (rows = [] → getLatest rows = .raises) ∧
    (∀ x, rows = [x] → getLatest rows = .ok ⟨x.1, x.2, none, none, none⟩) ∧
    (∀ x y rest, rows = x :: y :: rest →
      (∀ z ∈ rows, z.1.code ≤ x.1.code) ∧
      getLatest rows = .ok ⟨x.1, x.2, some y.2, some (x.2 - y.2),
        if y.2 = 0 then none else some ((x.2 - y.2) / y.2 * 100)⟩) := by
  refine ⟨?_, ?_, ?_⟩
  · rintro rfl
    rfl
  · rintro x rfl
    rfl
  · rintro x y rest rfl
    rw [List.pairwise_cons] at hs
    constructor
    · intro z hz
      rcases List.mem_cons.mp hz with rfl | hz
      · exact Nat.le_refl _
      · exact Nat.le_of_lt (hs.1 z hz)
    · rfl

/-- Witness for C8 at a concrete two-row history. -/
theorem getLatest_spec_witness :
    getLatest [(⟨2023, 2, 1⟩, (110 : Rat)), (⟨2023, 1, 1⟩, 100)]
      = .ok ⟨⟨2023, 2, 1⟩, 110, some 100, some 10, some 10⟩ := by
  have h := (getLatest_spec [(⟨2023, 2, 1⟩, (110 : Rat)), (⟨2023, 1, 1⟩, 100)]
      (by simp [List.pairwise_cons, Date.code])).2.2
    (⟨2023, 2, 1⟩, (110 : Rat)) (⟨2023, 1, 1⟩, (100 : Rat)) [] rfl
  rw [h.2]
  norm_num

/-- A list with at most one element whose member is `r` has last element `r`. -/
theorem getLast_eq_some_of_unique {β : Type} (l : List β) (r : β)
    (hlen : l.length ≤ 1) (hr : r ∈ l) : l.getLast? = some r := by
  match l, hr with
  | [x], hr =>
      have : r = x := List.mem_singleton.mp hr
      rw [this]
      rfl
  | x :: y :: t, hr => simp at hlen

/-- A list whose image under a key function is duplicate-free and constant
has at most one element. -/
theorem length_le_one_of_const_key {β κ : Type} (f : β → κ) (l : List β) (k : κ)
    (hnd : (l.map f).Nodup) (hall : ∀ x ∈ l, f x = k) : l.length ≤ 1 := by
  match l with
  | [] => simp
  | [x] => simp
  | x :: y :: t =>
      exfalso
      rw [List.map_cons, List.map_cons, List.nodup_cons] at hnd
      apply hnd.1
      rw [hall x (by simp), ← hall y (by simp)]
      exact List.mem_cons_self _ _

/-- Under key uniqueness, the last element of the date-and-metric filter of
the mart rows is exactly the row with that date and metric. -/
theorem getLast_filter_eq_some_iff (rows : List (Date × Metric × Rat))
    (hnd : (rows.map (fun r => (r.1, r.2.1))).Nodup) (d : Date) (m : Metric)
    (r : Date × Metric × Rat) :
    ((rows.filter (fun x => x.1 = d)).filter (fun x => x.2.1 = m)).getLast? = some r
      ↔ (r ∈ rows ∧ r.1 = d ∧ r.2.1 = m) := by
  have hmemchar : ∀ x : Date × Metric × Rat,
      x ∈ (rows.filter (fun x => x.1 = d)).filter (fun x => x.2.1 = m)
        ↔ (x ∈ rows ∧ x.1 = d ∧ x.2.1 = m) := by
    intro x
    simp only [List.mem_filter, decide_eq_true_eq]
    tauto
  constructor
  · intro h
    exact (hmemchar r).mp (List.mem_of_getLast?_eq_some h)
  · rintro ⟨hmem, hd, hm⟩
    apply getLast_eq_some_of_unique
    · apply length_le_one_of_const_key (fun x => (x.1, x.2.1)) _ (d, m)
      · exact (((List.filter_sublist _).trans (List.filter_sublist _)).map _).nodup hnd
      · intro x hx
        obtain ⟨-, h1, h2⟩ := (hmemchar x).mp hx
        rw [h1, h2]
    · exact (hmemchar r).mpr ⟨hmem, hd, hm⟩

/-- C3 (amended): the nominal-vs-real endpoint works at the most recent date
at which either of `uidxnom`/`uidxreal` is present (the first row of the
date-descending query), not the most recent shared date: the reported values
are the metric values at that latest date, and the gap is their difference
when both are present there and absent otherwise — in particular absent when
only one of the two metrics exists for the category. -/
theorem nominalVsReal_spec (rows : List (Date × Metric × Rat))
    (r0 : Date × Metric × Rat) (rest : List (Date × Metric × Rat))
    (hrows : rows = r0 :: rest)
    (hs : List.Pairwise (fun a b : Date × Metric × Rat => b.1.code ≤ a.1.code) rows)
    (hnd : (rows.map (fun r => (r.1, r.2.1))).Nodup) :
    ∃ res, nominalVsReal rows = .ok res ∧
      res.periodDate = r0.1 ∧
      (∀ z ∈ rows, z.1.code ≤ r0.1.code) ∧
      (∀ a, res.uidxnom = some a ↔ (r0.1, Metric.uidxnom, a) ∈ rows) ∧
      (∀ b, res.uidxreal = some b ↔ (r0.1, Metric.uidxreal, b) ∈ rows) ∧
      res.gap = (match res.uidxnom, res.uidxreal with
        | some a, some b => some (a - b)
        | _, _ => none) := by
  subst hrows
  refine ⟨_, rfl, rfl, ?_, ?_, ?_, rfl⟩
  · intro z hz
    rw [List.pairwise_cons] at hs
    rcases List.mem_cons.mp hz with rfl | hz
    · exact Nat.le_refl _
    · exact hs.1 z hz
  · intro a
    show ((((r0 :: rest).filter (fun r => r.1 = r0.1)).filter
        (fun r => r.2.1 = Metric.uidxnom)).getLast?).map (fun r => r.2.2) = some a ↔ _
    rw [Option.map_eq_some']
    constructor
    · rintro ⟨r', hr', rfl⟩
      obtain ⟨hmem, hd, hm⟩ :=
        (getLast_filter_eq_some_iff (r0 :: rest) hnd r0.1 Metric.uidxnom r').mp hr'
      rw [← hd, ← hm]
      exact hmem
    · intro hmem
      exact ⟨(r0.1, Metric.uidxnom, a),
        (getLast_filter_eq_some_iff (r0 :: rest) hnd r0.1 Metric.uidxnom _).mpr
          ⟨hmem, rfl, rfl⟩, rfl⟩
  · intro b
    show ((((r0 :: rest).filter (fun r => r.1 = r0.1)).filter
        (fun r => r.2.1 = Metric.uidxreal)).getLast?).map (fun r => r.2.2) = some b ↔ _
    rw [Option.map_eq_some']
    constructor
    · rintro ⟨r', hr', rfl⟩
      obtain ⟨hmem, hd, hm⟩ :=
        (getLast_filter_eq_some_iff (r0 :: rest) hnd r0.1 Metric.uidxreal r').mp hr'
      rw [← hd, ← hm]
      exact hmem
    · intro hmem
      exact ⟨(r0.1, Metric.uidxreal, b),
        (getLast_filter_eq_some_iff (r0 :: rest) hnd r0.1 Metric.uidxreal _).mpr
          ⟨hmem, rfl, rfl⟩, rfl⟩

/-- Witness for the amended theorem of C3 at a two-row query result. -/
theorem nominalVsReal_spec_witness :
    ∃ res, nominalVsReal nvrRowsW = .ok res ∧
      res.periodDate = (⟨2023, 1, 1⟩ : Date) ∧
      (∀ z ∈ nvrRowsW, z.1.code ≤ (⟨2023, 1, 1⟩ : Date).code) ∧
      (∀ a, res.uidxnom = some a
        ↔ ((⟨2023, 1, 1⟩ : Date), Metric.uidxnom, a) ∈ nvrRowsW) ∧
      (∀ b, res.uidxreal = some b
        ↔ ((⟨2023, 1, 1⟩ : Date), Metric.uidxreal, b) ∈ nvrRowsW) ∧
      res.gap = (match res.uidxnom, res.uidxreal with
        | some a, some b => some (a - b)
        | _, _ => none) :=
  nominalVsReal_spec nvrRowsW
    (⟨2023, 1, 1⟩, Metric.uidxnom, (100 : Rat))
    [(⟨2023, 1, 1⟩, Metric.uidxreal, (90 : Rat))] rfl
    (by simp [nvrRowsW, List.pairwise_cons]) (by simp [nvrRowsW])

/-- C3 (counterexample): on a sorted, key-unique query result where both
metrics are present at `2023-01-01` but only `uidxnom` at the later
`2023-02-01`, the endpoint reports the later date with gap unresolved instead
of comparing at the most recent shared date (where the gap would be 10). -/
theorem nominalVsReal_ignores_shared_date :
    nominalVsReal nvrRows = .ok ⟨⟨2023, 2, 1⟩, some 110, none, none⟩ ∧
    (⟨2023, 1, 1⟩, Metric.uidxnom, (100 : Rat)) ∈ nvrRows ∧
    (⟨2023, 1, 1⟩, Metric.uidxreal, (90 : Rat)) ∈ nvrRows ∧
    List.Pairwise (fun a b : Date × Metric × Rat => b.1.code ≤ a.1.code) nvrRows ∧
    (nvrRows.map (fun r => (r.1, r.2.1))).Nodup := by
  refine ⟨by decide, by decide, by decide, ?_, by decide⟩
  simp [nvrRows, List.pairwise_cons, Date.code]

end StatAt
